import Mathlib

/-!
Verification of the CoreChain federated-learning ledger core.

Shallow embedding of:
  * `src/blockchain/src/blockchain_core.py`   (Block, Blockchain)
  * `src/blockchain/src/smart_contracts.py`   (ModelUpdateValidator, RewardDistributor)
  * `src/aggregator/src/grpc_server.py`       (ModelAggregationServicer aggregation/rewards)
  * `src/shared/encryption.py`                (EncryptionManager encrypt/decrypt)

Python dictionaries are modelled as records with `Option` fields; Python
numbers as `Rat`/`Int`/`Nat` with exact arithmetic; code that can raise a
Python exception returns `Except PyErr _`.  SHA-256 over the JSON
serialization is modelled by an abstract hash function parameter `H`:
every theorem about hashing holds for an arbitrary deterministic `H`,
which is all the chain-integrity logic of the source relies on.
-/

/-- Python exceptions that the modelled code can raise. -/
inductive PyErr where
  | keyError
  | indexError
  | zeroDivisionError
  | unboundLocalError
  | valueError
  deriving DecidableEq, Repr

/-- A transaction dictionary (`Dict` in the source).  Every field the
CoreChain code ever reads is modelled as an `Option`: `none` means the key
is absent from the dictionary. -/
structure Tx where
  type : Option String := none
  hospital_id : Option String := none
  hospital_name : Option String := none
  dataset_size : Option Int := none
  round : Option Int := none
  accuracy : Option Rat := none
  loss : Option Rat := none
  samples_trained : Option Int := none
  samples_contributed : Option Int := none
  reward_tokens : Option Rat := none
  global_accuracy : Option Rat := none
  global_loss : Option Rat := none
  participants : Option Nat := none
  total_samples : Option Int := none
  message : Option String := none
  timestamp : Option String := none
  deriving DecidableEq, Repr

/-- A block of the chain (`Block.__init__` fields in
`blockchain_core.py`). -/
structure Block where
  index : Nat
  timestamp : String
  transactions : List Tx
  previous_hash : String
  nonce : Nat
  hash : String
  deriving DecidableEq, Repr

instance : Inhabited Block := ⟨⟨0, "", [], "", 0, ""⟩⟩

/-- Abstract model of `hashlib.sha256(json.dumps({...}, sort_keys=True))`:
a deterministic function of the five hashed block fields. -/
def HashFn : Type := Nat → String → List Tx → String → Nat → String

/-- `Block.calculate_hash`: the digest of the five fields other than
`hash` itself. -/
def calculateHash (H : HashFn) (b : Block) : String :=
  H b.index b.timestamp b.transactions b.previous_hash b.nonce

/-- `'0' * difficulty`, the proof-of-work target. -/
def powTarget (difficulty : Nat) : String :=
  String.mk (List.replicate difficulty '0')

/-- `self.hash[:difficulty] == target`. -/
def hashMeetsTarget (difficulty : Nat) (h : String) : Bool :=
  h.take difficulty == powTarget difficulty

/-- One iteration of the `mine_block` loop body:
`self.nonce += 1; self.hash = self.calculate_hash()`. -/
def mineStep (H : HashFn) (b : Block) : Block :=
  let b' : Block := { b with nonce := b.nonce + 1 }
  { b' with hash := calculateHash H b' }

/-- `Block.mine_block`: loop until the hash meets the target.  The Python
loop is unbounded; `fuel` bounds the number of iterations here and `none`
models non-termination within the allotted fuel. -/
def mineBlock (H : HashFn) (difficulty : Nat) : Nat → Block → Option Block
  | fuel, b =>
    if hashMeetsTarget difficulty b.hash then some b
    else
      match fuel with
      | 0 => none
      | f + 1 => mineBlock H difficulty f (mineStep H b)

/-- The `Blockchain` object state: sealed chain, pending pool,
difficulty. -/
structure Blockchain where
  chain : List Block
  pending_transactions : List Tx
  difficulty : Nat
  deriving DecidableEq, Repr

/-- The genesis transaction built in `_create_genesis_block`. -/
def genesisTx (ts : String) : Tx :=
  { type := some "GENESIS", message := some "CoreChain Genesis Block",
    timestamp := some ts }

/-- `Block(...)` constructor: stores the fields and computes
`self.hash = self.calculate_hash()`. -/
def Block.make (H : HashFn) (index : Nat) (ts : String) (txs : List Tx)
    (prev : String) (nonce : Nat) : Block :=
  { index := index, timestamp := ts, transactions := txs,
    previous_hash := prev, nonce := nonce,
    hash := H index ts txs prev nonce }

/-- `Blockchain.__init__` + `_create_genesis_block`: mine the genesis
block (index 0, previous hash `"0"`) and start with an empty pool. -/
def Blockchain.new (H : HashFn) (difficulty : Nat) (ts : String)
    (fuel : Nat) : Option Blockchain :=
  match mineBlock H difficulty fuel (Block.make H 0 ts [genesisTx ts] "0" 0) with
  | none => none
  | some g => some { chain := [g], pending_transactions := [], difficulty := difficulty }

/-- `Blockchain.mine_pending_transactions`: no-op on an empty pool,
otherwise seal a new block holding the whole pool and clear the pool.
`ts` is the wall-clock timestamp of the new block; `none` covers the
unreachable empty-chain access and fuel exhaustion of the mining loop. -/
def minePendingTransactions (H : HashFn) (ts : String) (fuel : Nat)
    (bc : Blockchain) : Option Blockchain :=
  match bc.pending_transactions with
  | [] => some bc
  | _ =>
    match bc.chain.getLast? with
    | none => none
    | some latest =>
      match mineBlock H bc.difficulty fuel
          (Block.make H bc.chain.length ts bc.pending_transactions latest.hash 0) with
      | none => none
      | some b =>
        some { bc with chain := bc.chain ++ [b], pending_transactions := [] }

/-- `Blockchain.add_transaction`: stamp a timestamp if absent, append to
the pool, and auto-mine once the pool holds at least 5 transactions.
(The returned transaction hash of the source is irrelevant to the claims
and omitted.)  `nowTs` stamps the transaction, `mineTs` timestamps the
auto-mined block. -/
def addTransaction (H : HashFn) (tx : Tx) (nowTs mineTs : String)
    (fuel : Nat) (bc : Blockchain) : Option Blockchain :=
  let tx' := if tx.timestamp = none then { tx with timestamp := some nowTs } else tx
  let bc' := { bc with pending_transactions := bc.pending_transactions ++ [tx'] }
  if 5 ≤ bc'.pending_transactions.length then
    minePendingTransactions H mineTs fuel bc'
  else
    some bc'

/-- The three per-block checks of the `is_chain_valid` loop body for a
consecutive pair (previous, current). -/
def adjOK (H : HashFn) (difficulty : Nat) (prev cur : Block) : Bool :=
  (cur.hash == calculateHash H cur) &&
  (cur.previous_hash == prev.hash) &&
  hashMeetsTarget difficulty cur.hash

/-- The `for i in range(1, len(chain))` loop of `is_chain_valid`,
expressed over consecutive pairs. -/
def chainCheck (H : HashFn) (difficulty : Nat) : List Block → Bool
  | [] => true
  | [_] => true
  | a :: b :: rest => adjOK H difficulty a b && chainCheck H difficulty (b :: rest)

/-- `Blockchain.is_chain_valid`. -/
def isChainValid (H : HashFn) (bc : Blockchain) : Bool :=
  chainCheck H bc.difficulty bc.chain

/-- One external ledger operation, with its wall-clock timestamps and
mining fuel supplied as oracle inputs. -/
inductive LedgerOp where
  | addTx (tx : Tx) (nowTs mineTs : String) (fuel : Nat)
  | mine (ts : String) (fuel : Nat)

/-- Apply one operation to the ledger. -/
def applyOp (H : HashFn) (bc : Blockchain) : LedgerOp → Option Blockchain
  | .addTx tx nowTs mineTs fuel => addTransaction H tx nowTs mineTs fuel bc
  | .mine ts fuel => minePendingTransactions H ts fuel bc

/-- Run a sequence of ledger operations. -/
def runOps (H : HashFn) (bc : Blockchain) : List LedgerOp → Option Blockchain
  | [] => some bc
  | op :: ops =>
    match applyOp H bc op with
    | none => none
    | some bc' => runOps H bc' ops

/-! ### Persistence (`save_to_file` / `load_from_file`) -/

/-- `Blockchain.get_chain` / `save_to_file`: the persisted record of a
block carries all six fields (`to_dict`), so saving is the chain itself
(JSON serialization is modelled as the identity on records). -/
def saveToFile (bc : Blockchain) : List Block :=
  bc.chain

/-- Rebuilding one block in `load_from_file`: the `Block(...)` constructor
recomputes a hash from the five fields, which is then overwritten with
the persisted `hash` value (`block.hash = block_data['hash']`). -/
def loadBlock (H : HashFn) (r : Block) : Block :=
  let b := Block.make H r.index r.timestamp r.transactions r.previous_hash r.nonce
  { b with hash := r.hash }

/-- `Blockchain.load_from_file` on a successfully read file: replace the
chain with the reloaded blocks; the pool and difficulty are untouched. -/
def loadFromFile (H : HashFn) (data : List Block) (bc : Blockchain) : Blockchain :=
  { bc with chain := data.map (loadBlock H) }

/-! ### Ledger query surface -/

/-- `Blockchain.get_transactions_by_type`: sealed transactions whose
`type` key equals `ty`, in chain order.  (The source also attaches
`block_index`/`block_hash` to each result; no caller relevant to the
claims reads those, so they are not carried here.) -/
def getTransactionsByType (bc : Blockchain) (ty : String) : List Tx :=
  bc.chain.flatMap fun b => b.transactions.filter fun t => t.type == some ty

/-- `Blockchain.get_transactions_by_hospital`: sealed transactions whose
`hospital_id` key equals `hid`, in chain order. -/
def getTransactionsByHospital (bc : Blockchain) (hid : String) : List Tx :=
  bc.chain.flatMap fun b => b.transactions.filter fun t => t.hospital_id == some hid

/-! ### `ModelUpdateValidator.execute` -/

/-- The validation outcome messages of `ModelUpdateValidator.execute`,
one constructor per distinct message template of the source. -/
inductive VMsg where
  | missingField (f : String)
  | notRegistered (hid : String)
  | invalidAccuracy (a : Rat)
  | invalidSamples (n : Int)
  | duplicateSubmission (hid : String) (r : Int)
  | success
  deriving DecidableEq, Repr

/-- `any(reg['hospital_id'] == hospital_id for reg in registrations)`:
lazily scans the registrations; `reg['hospital_id']` raises `KeyError`
at the first registration record lacking the key. -/
def anyRegistered : List Tx → String → Except PyErr Bool
  | [], _ => .ok false
  | r :: rest, hid =>
    match r.hospital_id with
    | none => .error .keyError
    | some h => if h = hid then .ok true else anyRegistered rest hid

/-- `ModelUpdateValidator.execute(update_data)`, including the source's
check order: required fields, registration, accuracy range, samples
count, duplicate-round submission. -/
def validatorExecute (bc : Blockchain) (u : Tx) : Except PyErr (Bool × VMsg) :=
  if u.hospital_id.isNone then .ok (false, .missingField "hospital_id")
  else if u.round.isNone then .ok (false, .missingField "round")
  else if u.accuracy.isNone then .ok (false, .missingField "accuracy")
  else if u.samples_trained.isNone then .ok (false, .missingField "samples_trained")
  else
    let hid := u.hospital_id.getD ""
    match anyRegistered (getTransactionsByType bc "HOSPITAL_REGISTRATION") hid with
    | .error e => .error e
    | .ok registered =>
      if !registered then .ok (false, .notRegistered hid)
      else
        let a := u.accuracy.getD 0
        if ¬ (0 ≤ a ∧ a ≤ 1) then .ok (false, .invalidAccuracy a)
        else
          let n := u.samples_trained.getD 0
          if n ≤ 0 then .ok (false, .invalidSamples n)
          else
            let r := u.round.getD 0
            let existing := (getTransactionsByHospital bc hid).filter fun t =>
              t.type == some "MODEL_UPDATE" && t.round == some r
            if existing ≠ [] then .ok (false, .duplicateSubmission hid r)
            else .ok (true, .success)

/-! ### `RewardDistributor.execute` and Python `round(x, 2)` -/

/-- Python's `round` to an integer: round half to even. -/
def pyRoundHalfEven (q : Rat) : Int :=
  let f := ⌊q⌋
  if q - f < 1/2 then f
  else if q - f > 1/2 then f + 1
  else if f % 2 = 0 then f else f + 1

/-- Python's `round(x, 2)`. -/
def pyRound2 (q : Rat) : Rat :=
  (pyRoundHalfEven (q * 100) : Rat) / 100

/-- `RewardDistributor.execute`.  `base` is `self.base_reward`
(default `10.0`).  The success log line of the source interpolates
`sample_bonus`, a local variable that is only assigned inside the
`if total_samples > 0` branch; when `total_samples <= 0` that f-string
raises `UnboundLocalError` before the function can return. -/
def rewardExecute (base : Rat) (accuracy : Rat)
    (samples_contributed total_samples : Int) : Except PyErr Rat :=
  let reward0 := base + accuracy * 5
  let sampleBonus : Option Rat :=
    if 0 < total_samples
    then some ((samples_contributed : Rat) / (total_samples : Rat) * 5)
    else none
  let reward1 := reward0 + sampleBonus.getD 0
  let reward2 := if accuracy > 9/10 then reward1 * (12/10) else reward1
  match sampleBonus with
  | some _ => .ok (pyRound2 reward2)
  | none => .error .unboundLocalError

/-! ### Numpy arrays and the weight-protection codec
(`src/shared/encryption.py`) -/

/-- A numpy array: its shape and its row-major (`flatten`) data. -/
structure NDArray where
  shape : List Nat
  data : List Rat
  deriving DecidableEq, Repr

instance : Inhabited NDArray := ⟨⟨[], []⟩⟩

/-- `array * scalar`: elementwise multiplication, shape preserved. -/
def NDArray.smul (a : NDArray) (c : Rat) : NDArray :=
  { shape := a.shape, data := a.data.map fun x => x * c }

/-- `array + array`: elementwise addition; adding arrays of different
shapes is a numpy error (broadcasting between two distinct weight-tensor
shapes never succeeds for the shapes this system exchanges). -/
def NDArray.add (a b : NDArray) : Except PyErr NDArray :=
  if a.shape = b.shape then
    .ok { shape := a.shape, data := List.zipWith (· + ·) a.data b.data }
  else
    .error .valueError

/-- `np.array(flat).reshape(shape)`: succeeds exactly when the element
count matches the shape's volume. -/
def reshape (shape : List Nat) (flat : List Rat) : Except PyErr NDArray :=
  if flat.length = shape.prod then .ok { shape := shape, data := flat }
  else .error .valueError

/-- One entry of the list pickled by `encrypt_weights`: original shape,
the Paillier-encrypted sample of the first `min(100, n)` values, the
sample size, and the full flattened plaintext (`full_weights`). -/
structure EncLayer (C : Type) where
  shape : List Nat
  encrypted_sample : List C
  sample_size : Nat
  full_weights : List Rat

/-- `EncryptionManager.encrypt_weights` with public-key encryption
abstracted as `E : Rat → C` (`self.public_key.encrypt(float(w))`).
The pickle serialization step is modelled as the identity. -/
def encryptWeights {C : Type} (E : Rat → C) (weights : List NDArray) :
    List (EncLayer C) :=
  weights.map fun w =>
    let flat := w.data
    let sampleSize := min 100 flat.length
    { shape := w.shape,
      encrypted_sample := (flat.take sampleSize).map E,
      sample_size := sampleSize,
      full_weights := flat }

/-- `EncryptionManager.decrypt_weights` with private-key decryption
abstracted as `D : C → Rat`.  The decrypted sample is computed but unused
by the source; each output array is rebuilt from the transported
`full_weights` plaintext, reshaped to the stored shape. -/
def decryptWeights {C : Type} (D : C → Rat) (encs : List (EncLayer C)) :
    Except PyErr (List NDArray) :=
  encs.mapM fun e =>
    let _decrypted_sample := e.encrypted_sample.map D
    reshape e.shape e.full_weights

/-! ### The round-aggregation coordinator
(`ModelAggregationServicer` in `src/aggregator/src/grpc_server.py`) -/

/-- One buffered entry of `self.round_updates[round_number]`. -/
structure UpdateRec where
  hospital_id : String
  weights : List NDArray
  samples_trained : Int
  local_accuracy : Rat
  local_loss : Rat
  timestamp : String
  deriving DecidableEq, Repr

/-- The coordinator state touched by aggregation: the round buffer, the
global model, the global metrics, the current round, and the transactions
logged through `blockchain_client.log_transaction` (in order). -/
structure ServState where
  current_round : Int
  round_updates : List (Int × List UpdateRec)
  global_model_weights : Option (List (Option NDArray))
  gm_accuracy : Rat
  gm_loss : Rat
  gm_total_samples : Int
  logged : List Tx
  deriving DecidableEq, Repr

/-- `self.round_updates[round_number]` as a dictionary lookup. -/
def lookupRound (m : List (Int × List UpdateRec)) (r : Int) :
    Option (List UpdateRec) :=
  (m.find? fun p => p.1 == r).map Prod.snd

/-- The inner loop of `_aggregate_round` for one layer index `l`:
`weight = update['weights'][layer_idx]` (IndexError when absent),
`contribution = weight * (update['samples_trained'] / total_samples)`
(ZeroDivisionError when `total_samples == 0`), accumulated into
`weighted_sum` starting from `None`. -/
def aggStep (total : Int) (l : Nat) (acc : Option NDArray) (u : UpdateRec) :
    Except PyErr (Option NDArray) := do
  let w ← match u.weights[l]? with
    | some w => Except.ok w
    | none => Except.error PyErr.indexError
  if total = 0 then
    Except.error PyErr.zeroDivisionError
  else
    let contribution := w.smul ((u.samples_trained : Rat) / (total : Rat))
    match acc with
    | none => Except.ok (some contribution)
    | some ws => (ws.add contribution).map some

def aggregateLayer (total : Int) (updates : List UpdateRec) (l : Nat) :
    Except PyErr (Option NDArray) :=
  updates.foldlM (aggStep total l) none

/-- The `MODEL_AGGREGATION` transaction logged by `_aggregate_round`. -/
def aggregationTx (round : Int) (acc loss : Rat) (n : Nat) (total : Int)
    (now : String) : Tx :=
  { type := some "MODEL_AGGREGATION", round := some round,
    global_accuracy := some acc, global_loss := some loss,
    participants := some n, total_samples := some total,
    timestamp := some now }

/-- The per-participant reward computed inline by `_distribute_rewards`:
`base_reward + accuracy_bonus + sample_weight` with `base_reward = 10`,
no quality multiplier and no rounding. -/
def coordReward (u : UpdateRec) (totalSamples : Int) : Rat :=
  10 + u.local_accuracy * 5 + (u.samples_trained : Rat) / (totalSamples : Rat) * 5

/-- `_distribute_rewards`: log one `REWARD_DISTRIBUTION` transaction per
buffered update; the division by `self.global_metrics['total_samples']`
raises when that value is zero. -/
def distributeRewards (totalSamples : Int) (round : Int)
    (updates : List UpdateRec) (now : String) : Except PyErr (List Tx) :=
  updates.mapM fun u =>
    if totalSamples = 0 then .error .zeroDivisionError
    else
      .ok { type := some "REWARD_DISTRIBUTION",
            hospital_id := some u.hospital_id,
            round := some round,
            reward_tokens := some (coordReward u totalSamples),
            accuracy := some u.local_accuracy,
            samples_contributed := some u.samples_trained,
            timestamp := some now : Tx }

/-- `_aggregate_round`.  Python mutates `self` in place and lets
exceptions propagate, so an error result carries the state as already
mutated at the point of the raise (the only mutation that can precede a
raise is the `self.global_model_weights` assignment, which happens before
the global-metrics divisions). -/
def aggregateRound (st : ServState) (round : Int) (now : String) :
    Except (PyErr × ServState) ServState :=
  match lookupRound st.round_updates round with
  | none => .error (.keyError, st)
  | some updates =>
    let total : Int := (updates.map (·.samples_trained)).sum
    match updates with
    | [] => .error (.indexError, st)
    | u0 :: _ =>
      let numLayers := u0.weights.length
      match (List.range numLayers).mapM (aggregateLayer total updates) with
      | .error e => .error (e, st)
      | .ok aggregated =>
        let st1 := { st with global_model_weights := some aggregated }
        if total = 0 then .error (.zeroDivisionError, st1)
        else
          let acc := (updates.map fun u => u.local_accuracy * (u.samples_trained : Rat)).sum
            / (total : Rat)
          let loss := (updates.map fun u => u.local_loss * (u.samples_trained : Rat)).sum
            / (total : Rat)
          let st2 := { st1 with gm_accuracy := acc, gm_loss := loss,
                                gm_total_samples := total, current_round := round }
          let st3 := { st2 with logged :=
            st2.logged ++ [aggregationTx round acc loss updates.length total now] }
          match distributeRewards total round updates now with
          | .error e => .error (e, st3)
          | .ok rewardTxs => .ok { st3 with logged := st3.logged ++ rewardTxs }

/-! ## Lemmas about Python rounding -/

lemma pyRoundHalfEven_lb (q : Rat) : q - 1/2 ≤ (pyRoundHalfEven q : Rat) := by
  have hfl : ((⌊q⌋ : Int) : Rat) ≤ q := Int.floor_le q
  have hfu : q < (⌊q⌋ : Rat) + 1 := Int.lt_floor_add_one q
  simp only [pyRoundHalfEven]
  split_ifs with h1 h2 h3 <;> push_cast <;> linarith

lemma pyRoundHalfEven_ub (q : Rat) : (pyRoundHalfEven q : Rat) ≤ q + 1/2 := by
  have hfl : ((⌊q⌋ : Int) : Rat) ≤ q := Int.floor_le q
  have hfu : q < (⌊q⌋ : Rat) + 1 := Int.lt_floor_add_one q
  simp only [pyRoundHalfEven]
  split_ifs with h1 h2 h3 <;> push_cast <;> linarith

lemma pyRound2_lb (x : Rat) : x - 1/200 ≤ pyRound2 x := by
  have h := pyRoundHalfEven_lb (x * 100)
  unfold pyRound2
  linarith

lemma pyRound2_ub (x : Rat) : pyRound2 x ≤ x + 1/200 := by
  have h := pyRoundHalfEven_ub (x * 100)
  unfold pyRound2
  linarith

lemma pyRound2_lt_of_gap (a b : Rat) (h : a + 1/50 ≤ b) : pyRound2 a < pyRound2 b := by
  have ha := pyRound2_ub a
  have hb := pyRound2_lb b
  linarith

/-- C7: when `total_samples <= 0` the claim says `RewardDistributor.execute`
returns `round(10.0 + accuracy*5.0, 2)` (times 1.2 when accuracy > 0.9)
with sample bonus 0 and never raises; the code instead raises
`UnboundLocalError`, because its success-log f-string reads the local
`sample_bonus` which is only assigned when `total_samples > 0`. -/
theorem reward_execute_raises_on_nonpositive_total
    (base accuracy : Rat) (s t : Int) (ht : t ≤ 0) :
    rewardExecute base accuracy s t = .error .unboundLocalError := by
  have h : ¬ (0 < t) := not_lt.mpr ht
  simp [rewardExecute, h]

/-- Witness for C7 at `accuracy = 1/2`, `samples_contributed = 0`,
`total_samples = 0`. -/
theorem reward_execute_raises_on_nonpositive_total_witness :
    (0 : Int) ≤ 0 ∧ rewardExecute 10 (1/2) 0 0 = .error .unboundLocalError :=
  ⟨le_refl 0, reward_execute_raises_on_nonpositive_total 10 (1/2) 0 0 (by decide)⟩

/-- C3: with `total_samples > 0` and a non-negative sample count,
`RewardDistributor.execute` (base reward 10.0) returns
`round(r, 2)` for `r = 10 + accuracy*5 + (samples/total)*5`, multiplied
by 1.2 when `accuracy > 0.9` (additive bonuses first, multiplier last);
in particular the reward at accuracy 0.95 exceeds the one at accuracy
0.85 and equals `round((10 + 0.95*5 + sample_bonus) * 1.2, 2)`. -/
theorem reward_execute_formula_and_monotonicity
    (accuracy : Rat) (s t : Int) (ht : 0 < t) :
    rewardExecute 10 accuracy s t =
      .ok (pyRound2 (if accuracy > 9/10
        then (10 + accuracy * 5 + (s : Rat) / (t : Rat) * 5) * (12/10)
        else 10 + accuracy * 5 + (s : Rat) / (t : Rat) * 5))
    ∧ rewardExecute 10 (17/20) s t =
        .ok (pyRound2 (10 + (17/20) * 5 + (s : Rat) / (t : Rat) * 5))
    ∧ rewardExecute 10 (19/20) s t =
        .ok (pyRound2 ((10 + (19/20) * 5 + (s : Rat) / (t : Rat) * 5) * (12/10)))
    ∧ (0 ≤ s →
        pyRound2 (10 + (17/20) * 5 + (s : Rat) / (t : Rat) * 5)
          < pyRound2 ((10 + (19/20) * 5 + (s : Rat) / (t : Rat) * 5) * (12/10))) := by
  refine ⟨?_, ?_, ?_, ?_⟩
  · simp [rewardExecute, ht]
  · have hlt : ¬ ((17/20 : Rat) > 9/10) := by norm_num
    simp [rewardExecute, ht, hlt]
  · have hgt : ((19/20 : Rat) > 9/10) := by norm_num
    simp [rewardExecute, ht, hgt]
  · intro hs
    have hsb : 0 ≤ (s : Rat) / (t : Rat) * 5 := by
      have hs' : (0 : Rat) ≤ (s : Rat) := by exact_mod_cast hs
      have ht' : (0 : Rat) ≤ (t : Rat) := by
        have := le_of_lt ht
        exact_mod_cast this
      positivity
    apply pyRound2_lt_of_gap
    linarith

/-- Witness for C3 at accuracy 0.95, 100 of 400 samples. -/
theorem reward_execute_formula_and_monotonicity_witness :
    (0 : Int) < 400 ∧
    (rewardExecute 10 (19/20) 100 400 =
      .ok (pyRound2 (if (19/20 : Rat) > 9/10
        then (10 + (19/20) * 5 + (100 : Rat) / (400 : Rat) * 5) * (12/10)
        else 10 + (19/20) * 5 + (100 : Rat) / (400 : Rat) * 5))
    ∧ rewardExecute 10 (17/20) 100 400 =
        .ok (pyRound2 (10 + (17/20) * 5 + (100 : Rat) / (400 : Rat) * 5))
    ∧ rewardExecute 10 (19/20) 100 400 =
        .ok (pyRound2 ((10 + (19/20) * 5 + (100 : Rat) / (400 : Rat) * 5) * (12/10)))
    ∧ ((0 : Int) ≤ 100 →
        pyRound2 (10 + (17/20) * 5 + (100 : Rat) / (400 : Rat) * 5)
          < pyRound2 ((10 + (19/20) * 5 + (100 : Rat) / (400 : Rat) * 5) * (12/10)))) :=
  ⟨by decide,
    reward_execute_formula_and_monotonicity (19/20) 100 400 (by decide)⟩

/-! ## Persistence round-trip -/

lemma loadBlock_id (H : HashFn) (r : Block) : loadBlock H r = r := by
  cases r
  rfl

/-- C8: loading the persisted form of a chain reproduces the chain with
identical per-block hashes (the hash is taken from the persisted record,
not recomputed), hence `is_chain_valid` gives the same verdict as on the
original chain (in particular `true` whenever the original was valid). -/
theorem save_load_roundtrip_preserves_chain (H : HashFn) (bc : Blockchain) :
    loadFromFile H (saveToFile bc) bc = bc ∧
    isChainValid H (loadFromFile H (saveToFile bc) bc) = isChainValid H bc := by
  have hmap : ∀ (c : List Block), List.map (loadBlock H) c = c := by
    intro c
    induction c with
    | nil => rfl
    | cons a t ih => simp [loadBlock_id, ih]
  have h : loadFromFile H (saveToFile bc) bc = bc := by
    cases bc with
    | mk c p d =>
      simp [loadFromFile, saveToFile, hmap]
  exact ⟨h, by rw [h]⟩

/-! ## Weight-protection codec round-trip -/

/-- C9: `decrypt_weights(encrypt_weights(w))` returns arrays with exactly
the original shapes and values, for any keypair: the codec transports the
full flattened plaintext alongside the encrypted sample and rebuilds each
array from it.  The hypothesis states that each input is a genuine numpy
array (its flattened length matches its shape's volume). -/
lemma exceptMapM_map {α β γ ε : Type} (f : α → β) (g : β → Except ε γ) :
    ∀ (l : List α), (l.map f).mapM g = l.mapM (fun a => g (f a)) := by
  intro l
  induction l with
  | nil => rfl
  | cons a t ih => rw [List.map_cons, List.mapM_cons, List.mapM_cons, ih]

lemma mapM_reshape :
    ∀ (ws : List NDArray), (∀ w ∈ ws, w.data.length = w.shape.prod) →
      ws.mapM (fun w => reshape w.shape w.data) = .ok ws := by
  intro ws
  induction ws with
  | nil => intro _; rfl
  | cons w t ih =>
    intro hwf
    have hw : w.data.length = w.shape.prod := hwf w (List.mem_cons_self w t)
    have h1 : reshape w.shape w.data = .ok w := by
      obtain ⟨sh, da⟩ := w
      simp only [reshape] at *
      rw [if_pos hw]
    rw [List.mapM_cons, h1, ih (fun x hx => hwf x (List.mem_cons_of_mem w hx))]
    rfl

theorem decrypt_encrypt_roundtrip {C : Type} (E : Rat → C) (D : C → Rat)
    (ws : List NDArray) (hwf : ∀ w ∈ ws, w.data.length = w.shape.prod) :
    decryptWeights D (encryptWeights E ws) = .ok ws := by
  calc decryptWeights D (encryptWeights E ws)
      = ws.mapM (fun w => reshape w.shape w.data) :=
        exceptMapM_map _ _ ws
    _ = .ok ws := mapM_reshape ws hwf

/-- Witness for C9 on a concrete 2-element array with the trivial
cipher. -/
theorem decrypt_encrypt_roundtrip_witness :
    decryptWeights (fun _ : Unit => (0 : Rat))
      (encryptWeights (fun _ : Rat => ()) [⟨[2], [3, 7]⟩]) =
      .ok [⟨[2], [3, 7]⟩] :=
  decrypt_encrypt_roundtrip (fun _ : Rat => ()) (fun _ : Unit => (0 : Rat))
    [⟨[2], [3, 7]⟩] (by decide)

/-! ## C4: coordinator rewards vs. the RewardDistributor contract -/

/-- `distributeRewards` on a round with non-zero total samples: one
`REWARD_DISTRIBUTION` transaction per buffered update, carrying the
inline reward formula. -/
lemma distributeRewards_ok (total round : Int) (now : String) (ht : total ≠ 0) :
    ∀ (updates : List UpdateRec),
    distributeRewards total round updates now =
      .ok (updates.map fun u =>
        { type := some "REWARD_DISTRIBUTION", hospital_id := some u.hospital_id,
          round := some round, reward_tokens := some (coordReward u total),
          accuracy := some u.local_accuracy,
          samples_contributed := some u.samples_trained,
          timestamp := some now : Tx }) := by
  intro updates
  induction updates with
  | nil => rfl
  | cons u us ih =>
    simp only [distributeRewards, List.mapM_cons] at ih ⊢
    rw [if_neg ht, ih]
    rfl

/-- The buffered update used in the C4 counterexample: accuracy 0.95,
100 of 100 samples. -/
def uC4 : UpdateRec :=
  { hospital_id := "h1", weights := [⟨[1], [2]⟩], samples_trained := 100,
    local_accuracy := 19/20, local_loss := 3/10, timestamp := "t" }

/-- Coordinator state with one buffered update for round 1. -/
def stC4 : ServState :=
  { current_round := 0, round_updates := [(1, [uC4])],
    global_model_weights := none, gm_accuracy := 0, gm_loss := 0,
    gm_total_samples := 0, logged := [] }

/-- The `reward_tokens` values of the `REWARD_DISTRIBUTION` transactions
logged by an aggregation result. -/
def loggedRewardTokens (r : Except (PyErr × ServState) ServState) :
    List (Option Rat) :=
  match r with
  | .ok st => ((st.logged.filter fun t => decide (t.type = some "REWARD_DISTRIBUTION")).map
      (·.reward_tokens))
  | .error _ => []

/-- C4 counterexample: for the round with one participant at accuracy
0.95 contributing all 100 samples, the coordinator logs `reward_tokens
= 19.75` while `RewardDistributor.execute` returns `23.7` (it applies the
`accuracy > 0.9` multiplier 1.2 and rounds; the coordinator does
neither). -/
theorem coordinator_reward_ne_contract_reward :
    loggedRewardTokens (aggregateRound stC4 1 "now") = [some (79/4)]
    ∧ rewardExecute 10 (19/20) 100 100 = .ok (237/10)
    ∧ (79/4 : Rat) ≠ (237/10 : Rat) := by
  refine ⟨?_, ?_, by norm_num⟩
  · norm_num [loggedRewardTokens, aggregateRound, lookupRound, stC4, uC4,
      aggregateLayer, aggStep, List.foldlM_cons, List.foldlM_nil, NDArray.smul,
      NDArray.add, List.range_succ, distributeRewards, List.mapM.loop,
      aggregationTx, coordReward, Bind.bind, Except.bind, Pure.pure, Except.pure,
      List.filter_cons, List.filter_nil]
    rfl
  · norm_num [rewardExecute, pyRound2, pyRoundHalfEven]

/-- C4 (amended): the coordinator's per-participant reward equals
`10 + accuracy*5 + (samples/total)*5` with no `accuracy > 0.9` multiplier
and no rounding; it coincides with `RewardDistributor.execute` exactly
when `accuracy ≤ 0.9` and the value is a fixed point of rounding to two
decimals. -/
theorem coordinator_reward_formula_agrees_when_no_multiplier
    (updates : List UpdateRec) (total round : Int) (now : String)
    (u : UpdateRec) (ht : 0 < total) (hmem : u ∈ updates)
    (hacc : u.local_accuracy ≤ 9/10)
    (hfix : pyRound2 (coordReward u total) = coordReward u total) :
    (distributeRewards total round updates now).map (List.map (·.reward_tokens)) =
      .ok (updates.map fun v => some (coordReward v total))
    ∧ rewardExecute 10 u.local_accuracy u.samples_trained total =
        .ok (coordReward u total) := by
  constructor
  · rw [distributeRewards_ok total round now (ne_of_gt ht)]
    simp only [Except.map, List.map_map]
    rfl
  · have hna : ¬ (u.local_accuracy > 9/10) := not_lt.mpr hacc
    have h1 : rewardExecute 10 u.local_accuracy u.samples_trained total =
        .ok (pyRound2 (coordReward u total)) := by
      simp [rewardExecute, ht, hna, coordReward]
    rw [h1, hfix]

/-- The buffered update used in the C4 amended-claim witness. -/
def uC4w : UpdateRec :=
  { hospital_id := "h1", weights := [], samples_trained := 100,
    local_accuracy := 4/5, local_loss := 1/2, timestamp := "t" }

/-- Witness for the amended C4 at accuracy 0.8, 100 of 100 samples. -/
theorem coordinator_reward_formula_agrees_witness :
    (distributeRewards 100 1 [uC4w] "t").map (List.map (·.reward_tokens)) =
      .ok ([uC4w].map fun v => some (coordReward v 100))
    ∧ rewardExecute 10 uC4w.local_accuracy uC4w.samples_trained 100 =
        .ok (coordReward uC4w 100) :=
  coordinator_reward_formula_agrees_when_no_multiplier [uC4w] 100 1 "t" uC4w
    (by decide) (List.mem_singleton_self uC4w) (by norm_num [uC4w])
    (by norm_num [uC4w, coordReward, pyRound2, pyRoundHalfEven])

/-! ## C5: the validator's rejection conditions -/

lemma anyRegistered_eq_any (hid : String) :
    ∀ (l : List Tx), (∀ t ∈ l, t.hospital_id.isSome) →
      anyRegistered l hid = .ok (l.any fun t => t.hospital_id == some hid) := by
  intro l
  induction l with
  | nil => intro _; rfl
  | cons r rest ih =>
    intro h
    have h0 : r.hospital_id.isSome := h r (List.mem_cons_self r rest)
    have hrest : ∀ t ∈ rest, t.hospital_id.isSome :=
      fun t ht => h t (List.mem_cons_of_mem r ht)
    cases hr : r.hospital_id with
    | none => rw [hr] at h0; simp at h0
    | some x =>
      by_cases hx : x = hid
      · subst hx
        simp [anyRegistered, hr, List.any_cons]
      · simp [anyRegistered, hr, hx, List.any_cons, ih hrest]

lemma filter_ne_nil_iff_any (p : Tx → Bool) (l : List Tx) :
    (l.filter p ≠ []) ↔ l.any p = true := by
  constructor
  · intro h
    rcases List.exists_mem_of_ne_nil _ h with ⟨x, hx⟩
    rcases (List.mem_filter.mp hx) with ⟨hm, hp⟩
    exact List.any_eq_true.mpr ⟨x, hm, hp⟩
  · intro h hnil
    rcases List.any_eq_true.mp h with ⟨x, hm, hp⟩
    have : x ∈ l.filter p := List.mem_filter.mpr ⟨hm, hp⟩
    rw [hnil] at this
    exact absurd this (List.not_mem_nil x)

/-- C5: `ModelUpdateValidator.execute` returns `(false, reason)` without
raising exactly when a required field is missing, the hospital has no
sealed `HOSPITAL_REGISTRATION`, the accuracy is outside `[0, 1]`,
`samples_trained <= 0`, or a sealed `MODEL_UPDATE` for the same
`(hospital_id, round)` exists; otherwise it returns `(true, success)`.
An out-of-range accuracy is reported with the invalid-accuracy message
and an unregistered hospital with the distinct not-registered message.
The hypothesis restricts to chains whose sealed registrations carry a
`hospital_id` key, as every registration written by this system does. -/
theorem validator_rejects_exactly_invalid_updates (bc : Blockchain) (u : Tx)
    (hwf : ∀ t ∈ getTransactionsByType bc "HOSPITAL_REGISTRATION", t.hospital_id.isSome) :
    (validatorExecute bc u).map Prod.fst =
      .ok (!(u.hospital_id.isNone || u.round.isNone || u.accuracy.isNone ||
             u.samples_trained.isNone ||
             !((getTransactionsByType bc "HOSPITAL_REGISTRATION").any fun t =>
                 t.hospital_id == u.hospital_id) ||
             !(decide (0 ≤ u.accuracy.getD 0) && decide (u.accuracy.getD 0 ≤ 1)) ||
             decide (u.samples_trained.getD 0 ≤ 0) ||
             ((getTransactionsByHospital bc (u.hospital_id.getD "")).any fun t =>
                 t.type == some "MODEL_UPDATE" && t.round == u.round)))
    ∧ (u.hospital_id.isSome → u.round.isSome → u.accuracy.isSome →
        u.samples_trained.isSome →
        ((getTransactionsByType bc "HOSPITAL_REGISTRATION").any fun t =>
            t.hospital_id == u.hospital_id) = false →
        validatorExecute bc u = .ok (false, .notRegistered (u.hospital_id.getD "")))
    ∧ (u.hospital_id.isSome → u.round.isSome → u.accuracy.isSome →
        u.samples_trained.isSome →
        ((getTransactionsByType bc "HOSPITAL_REGISTRATION").any fun t =>
            t.hospital_id == u.hospital_id) = true →
        ¬ (0 ≤ u.accuracy.getD 0 ∧ u.accuracy.getD 0 ≤ 1) →
        validatorExecute bc u = .ok (false, .invalidAccuracy (u.accuracy.getD 0))) := by
  cases h1 : u.hospital_id with
  | none => simp [validatorExecute, Except.map, h1]
  | some hid =>
  cases h2 : u.round with
  | none => simp [validatorExecute, Except.map, h1, h2]
  | some r =>
  cases h3 : u.accuracy with
  | none => simp [validatorExecute, Except.map, h1, h2, h3]
  | some a =>
  cases h4 : u.samples_trained with
  | none => simp [validatorExecute, Except.map, h1, h2, h3, h4]
  | some n =>
  have hreg := anyRegistered_eq_any hid (getTransactionsByType bc "HOSPITAL_REGISTRATION") hwf
  by_cases hb : ((getTransactionsByType bc "HOSPITAL_REGISTRATION").any fun t =>
      t.hospital_id == some hid) = true
  · by_cases hacc : 0 ≤ a ∧ a ≤ 1
    · by_cases hn : n ≤ 0
      · simp [validatorExecute, Except.map, h1, h2, h3, h4, hreg, hb, hacc, hn]
      · by_cases hdup : ((getTransactionsByHospital bc hid).filter fun t =>
            t.type == some "MODEL_UPDATE" && t.round == some r) = []
        · have hdup' : ((getTransactionsByHospital bc hid).any fun t =>
              t.type == some "MODEL_UPDATE" && t.round == some r) = false :=
            Bool.eq_false_iff.mpr
              (fun hAny => (filter_ne_nil_iff_any _ _).mpr hAny hdup)
          simp [validatorExecute, Except.map, h1, h2, h3, h4, hreg, hb, hacc, hn, hdup, hdup']
        · have hdup' : ((getTransactionsByHospital bc hid).any fun t =>
              t.type == some "MODEL_UPDATE" && t.round == some r) = true :=
            (filter_ne_nil_iff_any _ _).mp hdup
          simp [validatorExecute, Except.map, h1, h2, h3, h4, hreg, hb, hacc, hn, hdup, hdup']
    · simp [validatorExecute, Except.map, h1, h2, h3, h4, hreg, hb, hacc]
  · have hb' : ((getTransactionsByType bc "HOSPITAL_REGISTRATION").any fun t =>
        t.hospital_id == some hid) = false := Bool.eq_false_iff.mpr hb
    simp [validatorExecute, Except.map, h1, h2, h3, h4, hreg, hb']

/-- Sealed registration transaction used in the validator witnesses. -/
def regTxW : Tx :=
  { type := some "HOSPITAL_REGISTRATION", hospital_id := some "h1",
    timestamp := some "t" }

/-- Sealed model-update transaction (hospital h1, round 1) used in the
C5 witness. -/
def updTxW : Tx :=
  { type := some "MODEL_UPDATE", hospital_id := some "h1", round := some 1,
    accuracy := some 1, samples_trained := some 5, timestamp := some "t" }

/-- Chain with one sealed block holding a registration for `h1` and a
model update for `(h1, 1)`. -/
def bcC5 : Blockchain :=
  { chain := [⟨0, "g", [genesisTx "g"], "0", 0, "hg"⟩,
              ⟨1, "t", [regTxW, updTxW], "hg", 0, "h1"⟩],
    pending_transactions := [], difficulty := 4 }

/-- The duplicate second submission for `(h1, 1)` used in the C5
witness. -/
def uC5 : Tx :=
  { hospital_id := some "h1", round := some 1, accuracy := some 1,
    samples_trained := some 5 }

/-- Witness for C5: on a chain holding a sealed `MODEL_UPDATE` for
`(h1, 1)`, a second submission for `(h1, 1)` is rejected. -/
theorem validator_rejects_exactly_invalid_updates_witness :
    (validatorExecute bcC5 uC5).map Prod.fst =
      .ok (!(uC5.hospital_id.isNone || uC5.round.isNone || uC5.accuracy.isNone ||
             uC5.samples_trained.isNone ||
             !((getTransactionsByType bcC5 "HOSPITAL_REGISTRATION").any fun t =>
                 t.hospital_id == uC5.hospital_id) ||
             !(decide (0 ≤ uC5.accuracy.getD 0) && decide (uC5.accuracy.getD 0 ≤ 1)) ||
             decide (uC5.samples_trained.getD 0 ≤ 0) ||
             ((getTransactionsByHospital bcC5 (uC5.hospital_id.getD "")).any fun t =>
                 t.type == some "MODEL_UPDATE" && t.round == uC5.round)))
    ∧ (uC5.hospital_id.isSome → uC5.round.isSome → uC5.accuracy.isSome →
        uC5.samples_trained.isSome →
        ((getTransactionsByType bcC5 "HOSPITAL_REGISTRATION").any fun t =>
            t.hospital_id == uC5.hospital_id) = false →
        validatorExecute bcC5 uC5 = .ok (false, .notRegistered (uC5.hospital_id.getD "")))
    ∧ (uC5.hospital_id.isSome → uC5.round.isSome → uC5.accuracy.isSome →
        uC5.samples_trained.isSome →
        ((getTransactionsByType bcC5 "HOSPITAL_REGISTRATION").any fun t =>
            t.hospital_id == uC5.hospital_id) = true →
        ¬ (0 ≤ uC5.accuracy.getD 0 ∧ uC5.accuracy.getD 0 ≤ 1) →
        validatorExecute bcC5 uC5 = .ok (false, .invalidAccuracy (uC5.accuracy.getD 0))) :=
  validator_rejects_exactly_invalid_updates bcC5 uC5 (by decide)

/-! ## C10: the validator reads only the sealed chain -/

lemma validator_eval_notRegistered (bc : Blockchain) (u : Tx) (hid : String)
    (hwf : ∀ t ∈ getTransactionsByType bc "HOSPITAL_REGISTRATION", t.hospital_id.isSome)
    (h1 : u.hospital_id = some hid) (h2 : u.round.isSome) (h3 : u.accuracy.isSome)
    (h4 : u.samples_trained.isSome)
    (hb : ((getTransactionsByType bc "HOSPITAL_REGISTRATION").any fun t =>
        t.hospital_id == some hid) = false) :
    validatorExecute bc u = .ok (false, .notRegistered hid) := by
  rcases Option.isSome_iff_exists.mp h2 with ⟨r, h2'⟩
  rcases Option.isSome_iff_exists.mp h3 with ⟨a, h3'⟩
  rcases Option.isSome_iff_exists.mp h4 with ⟨n, h4'⟩
  have hreg := anyRegistered_eq_any hid (getTransactionsByType bc "HOSPITAL_REGISTRATION") hwf
  simp [validatorExecute, h1, h2', h3', h4', hreg, hb]

lemma validator_eval_success (bc : Blockchain) (u : Tx) (hid : String) (r : Int)
    (a : Rat) (n : Int)
    (hwf : ∀ t ∈ getTransactionsByType bc "HOSPITAL_REGISTRATION", t.hospital_id.isSome)
    (h1 : u.hospital_id = some hid) (h2 : u.round = some r) (h3 : u.accuracy = some a)
    (h4 : u.samples_trained = some n)
    (hb : ((getTransactionsByType bc "HOSPITAL_REGISTRATION").any fun t =>
        t.hospital_id == some hid) = true)
    (hacc : 0 ≤ a ∧ a ≤ 1) (hn : 0 < n)
    (hdup : ((getTransactionsByHospital bc hid).filter fun t =>
        t.type == some "MODEL_UPDATE" && t.round == some r) = []) :
    validatorExecute bc u = .ok (true, .success) := by
  have hreg := anyRegistered_eq_any hid (getTransactionsByType bc "HOSPITAL_REGISTRATION") hwf
  have hn' : ¬ n ≤ 0 := not_le.mpr hn
  have hdup' : ((getTransactionsByHospital bc hid).any fun t =>
      t.type == some "MODEL_UPDATE" && t.round == some r) = false :=
    Bool.eq_false_iff.mpr (fun hAny => (filter_ne_nil_iff_any _ _).mpr hAny hdup)
  simp [validatorExecute, h1, h2, h3, h4, hreg, hb, hacc, hn', hdup, hdup']

/-- C10: `ModelUpdateValidator.execute` reads only the sealed chain: its
result is unchanged under any replacement of the pending pool; a hospital
whose registration is only pending is rejected as not registered, and a
submission whose only matching `MODEL_UPDATE` is still pending passes
validation (it is not rejected as a duplicate). -/
theorem validator_ignores_pending_pool
    (c : List Block) (p₁ p₂ : List Tx) (d₁ d₂ : Nat) (u : Tx)
    (hwf : ∀ t ∈ getTransactionsByType ⟨c, p₁, d₁⟩ "HOSPITAL_REGISTRATION",
      t.hospital_id.isSome) :
    validatorExecute ⟨c, p₁, d₁⟩ u = validatorExecute ⟨c, p₂, d₂⟩ u
    ∧ (∀ hid : String, u.hospital_id = some hid → u.round.isSome →
        u.accuracy.isSome → u.samples_trained.isSome →
        ((getTransactionsByType ⟨c, p₁, d₁⟩ "HOSPITAL_REGISTRATION").any fun t =>
            t.hospital_id == some hid) = false →
        validatorExecute ⟨c, p₁, d₁⟩ u = .ok (false, .notRegistered hid))
    ∧ (∀ (hid : String) (r : Int) (a : Rat) (n : Int),
        u.hospital_id = some hid → u.round = some r → u.accuracy = some a →
        u.samples_trained = some n →
        ((getTransactionsByType ⟨c, p₁, d₁⟩ "HOSPITAL_REGISTRATION").any fun t =>
            t.hospital_id == some hid) = true →
        0 ≤ a ∧ a ≤ 1 → 0 < n →
        ((getTransactionsByHospital ⟨c, p₁, d₁⟩ hid).filter fun t =>
            t.type == some "MODEL_UPDATE" && t.round == some r) = [] →
        validatorExecute ⟨c, p₁, d₁⟩ u = .ok (true, .success)) := by
  refine ⟨rfl, ?_, ?_⟩
  · intro hid h1 h2 h3 h4 hb
    exact validator_eval_notRegistered ⟨c, p₁, d₁⟩ u hid hwf h1 h2 h3 h4 hb
  · intro hid r a n h1 h2 h3 h4 hb hacc hn hdup
    exact validator_eval_success ⟨c, p₁, d₁⟩ u hid r a n hwf h1 h2 h3 h4 hb hacc hn hdup

/-- Pending-pool registration for `h2` used in the C10 witness. -/
def regTxW2 : Tx :=
  { type := some "HOSPITAL_REGISTRATION", hospital_id := some "h2",
    timestamp := some "t" }

/-- Sealed chain for the C10 witness: registration for `h1` only, no
sealed `MODEL_UPDATE`. -/
def chainC10 : List Block :=
  [⟨0, "g", [genesisTx "g"], "0", 0, "hg"⟩,
   ⟨1, "t", [regTxW], "hg", 0, "h1"⟩]

/-- Witness for C10: with a pending pool holding both a registration for
`h2` and a first `MODEL_UPDATE` copy for `(h1, 1)`, the validator's
verdict matches the empty-pool verdict, and the `(h1, 1)` submission
passes validation (the pending copy does not count as a duplicate). -/
theorem validator_ignores_pending_pool_witness :
    validatorExecute ⟨chainC10, [regTxW2, updTxW], 4⟩ uC5 =
      validatorExecute ⟨chainC10, [], 4⟩ uC5
    ∧ (∀ hid : String, uC5.hospital_id = some hid → uC5.round.isSome →
        uC5.accuracy.isSome → uC5.samples_trained.isSome →
        ((getTransactionsByType ⟨chainC10, [regTxW2, updTxW], 4⟩
            "HOSPITAL_REGISTRATION").any fun t =>
            t.hospital_id == some hid) = false →
        validatorExecute ⟨chainC10, [regTxW2, updTxW], 4⟩ uC5 =
          .ok (false, .notRegistered hid))
    ∧ (∀ (hid : String) (r : Int) (a : Rat) (n : Int),
        uC5.hospital_id = some hid → uC5.round = some r → uC5.accuracy = some a →
        uC5.samples_trained = some n →
        ((getTransactionsByType ⟨chainC10, [regTxW2, updTxW], 4⟩
            "HOSPITAL_REGISTRATION").any fun t =>
            t.hospital_id == some hid) = true →
        0 ≤ a ∧ a ≤ 1 → 0 < n →
        ((getTransactionsByHospital ⟨chainC10, [regTxW2, updTxW], 4⟩ hid).filter
            fun t => t.type == some "MODEL_UPDATE" && t.round == some r) = [] →
        validatorExecute ⟨chainC10, [regTxW2, updTxW], 4⟩ uC5 =
          .ok (true, .success)) :=
  validator_ignores_pending_pool chainC10 [regTxW2, updTxW] [] 4 4 uC5 (by decide)

/-! ## C1: every reachable chain validates -/

lemma mineBlock_spec (H : HashFn) (d : Nat) :
    ∀ (fuel : Nat) (b b' : Block), b.hash = calculateHash H b →
      mineBlock H d fuel b = some b' →
      b'.previous_hash = b.previous_hash ∧ b'.hash = calculateHash H b' ∧
      hashMeetsTarget d b'.hash = true := by
  intro fuel
  induction fuel with
  | zero =>
    intro b b' hh hm
    rw [mineBlock] at hm
    by_cases hT : hashMeetsTarget d b.hash
    · rw [if_pos hT] at hm
      injection hm with h
      subst h
      exact ⟨rfl, hh, hT⟩
    · rw [if_neg hT] at hm
      simp at hm
  | succ f ih =>
    intro b b' hh hm
    rw [mineBlock] at hm
    by_cases hT : hashMeetsTarget d b.hash
    · rw [if_pos hT] at hm
      injection hm with h
      subst h
      exact ⟨rfl, hh, hT⟩
    · rw [if_neg hT] at hm
      have hstep : (mineStep H b).hash = calculateHash H (mineStep H b) := rfl
      obtain ⟨hp, hc, ht⟩ := ih (mineStep H b) b' hstep hm
      exact ⟨hp, hc, ht⟩

lemma chainCheck_snoc (H : HashFn) (d : Nat) :
    ∀ (l : List Block) (x b : Block), l.getLast? = some x →
      chainCheck H d (l ++ [b]) = (chainCheck H d l && adjOK H d x b) := by
  intro l
  induction l with
  | nil => intro x b h; simp at h
  | cons y t ih =>
    intro x b h
    cases t with
    | nil =>
      have hx : y = x := by simpa using h
      subst hx
      show chainCheck H d [y, b] = (chainCheck H d [y] && adjOK H d y b)
      simp [chainCheck]
    | cons z t' =>
      have h' : (z :: t').getLast? = some x := by
        rw [List.getLast?_cons_cons] at h
        exact h
      have e1 : chainCheck H d ((y :: z :: t') ++ [b]) =
          (adjOK H d y z && chainCheck H d ((z :: t') ++ [b])) := by
        simp [chainCheck]
      have e2 : chainCheck H d (y :: z :: t') =
          (adjOK H d y z && chainCheck H d (z :: t')) := by
        simp [chainCheck]
      rw [e1, ih x b h', e2, Bool.and_assoc]

/-- The reachability invariant of C1: the sealed chain validates and is
non-empty. -/
def ChainInv (H : HashFn) (bc : Blockchain) : Prop :=
  chainCheck H bc.difficulty bc.chain = true ∧ bc.chain ≠ []

lemma minePending_inv (H : HashFn) (ts : String) (fuel : Nat)
    (bc bc' : Blockchain) (hinv : ChainInv H bc)
    (h : minePendingTransactions H ts fuel bc = some bc') : ChainInv H bc' := by
  obtain ⟨hv, hne⟩ := hinv
  rw [minePendingTransactions] at h
  split at h
  · injection h with h
    subst h
    exact ⟨hv, hne⟩
  · split at h
    · simp at h
    · rename_i latest hl
      split at h
      · simp at h
      · rename_i nb hm
        injection h with h
        subst h
        have hini : (Block.make H bc.chain.length ts bc.pending_transactions
              latest.hash 0).hash =
            calculateHash H (Block.make H bc.chain.length ts
              bc.pending_transactions latest.hash 0) := rfl
        obtain ⟨hprev, hhash, htarget⟩ := mineBlock_spec H bc.difficulty fuel _ nb hini hm
        have hpl : nb.previous_hash = latest.hash := hprev
        rw [hhash] at htarget
        constructor
        · show chainCheck H bc.difficulty (bc.chain ++ [nb]) = true
          rw [chainCheck_snoc H bc.difficulty bc.chain latest nb hl, hv]
          simp [adjOK, hhash, hpl, htarget]
        · simp

lemma addTransaction_inv (H : HashFn) (tx : Tx) (nowTs mineTs : String)
    (fuel : Nat) (bc bc' : Blockchain) (hinv : ChainInv H bc)
    (h : addTransaction H tx nowTs mineTs fuel bc = some bc') : ChainInv H bc' := by
  simp only [addTransaction] at h
  split at h <;> split at h
  case isTrue.isTrue =>
    exact minePending_inv H mineTs fuel _ bc' (by exact ⟨hinv.1, hinv.2⟩) h
  case isTrue.isFalse =>
    injection h with h
    subst h
    exact ⟨hinv.1, hinv.2⟩
  case isFalse.isTrue =>
    exact minePending_inv H mineTs fuel _ bc' (by exact ⟨hinv.1, hinv.2⟩) h
  case isFalse.isFalse =>
    injection h with h
    subst h
    exact ⟨hinv.1, hinv.2⟩

lemma runOps_inv (H : HashFn) :
    ∀ (ops : List LedgerOp) (bc bc' : Blockchain), ChainInv H bc →
      runOps H bc ops = some bc' → ChainInv H bc' := by
  intro ops
  induction ops with
  | nil =>
    intro bc bc' h hrun
    rw [runOps] at hrun
    injection hrun with hr
    subst hr
    exact h
  | cons op ops ih =>
    intro bc bc' h hrun
    rw [runOps] at hrun
    cases ha : applyOp H bc op with
    | none => rw [ha] at hrun; simp at hrun
    | some bcm =>
      rw [ha] at hrun
      have hm : ChainInv H bcm := by
        cases op with
        | addTx tx nowTs mineTs fuel =>
          exact addTransaction_inv H tx nowTs mineTs fuel bc bcm h ha
        | mine ts fuel =>
          exact minePending_inv H ts fuel bc bcm h ha
      exact ih bcm bc' hm hrun

/-- C1: from a fresh `Blockchain`, any sequence of `add_transaction` and
`mine_pending_transactions` calls (whose mining loops terminate) yields a
chain on which `is_chain_valid()` is true: every block after the genesis
stores the hash recomputed from its fields, links to the previous block's
hash, and meets the difficulty target, which is exactly what
`is_chain_valid` checks. -/
theorem blockchain_ops_preserve_chain_validity
    (H : HashFn) (d : Nat) (ts : String) (fuel : Nat) (ops : List LedgerOp)
    (bc₀ bc : Blockchain)
    (hinit : Blockchain.new H d ts fuel = some bc₀)
    (hrun : runOps H bc₀ ops = some bc) :
    isChainValid H bc = true := by
  have h0 : ChainInv H bc₀ := by
    rw [Blockchain.new] at hinit
    cases hm : mineBlock H d fuel (Block.make H 0 ts [genesisTx ts] "0" 0) with
    | none => rw [hm] at hinit; simp at hinit
    | some g =>
      rw [hm] at hinit
      injection hinit with h
      subst h
      exact ⟨rfl, by simp⟩
  exact (runOps_inv H ops bc₀ bc h0 hrun).1

/-- The trivially mining hash function of the C1 witness (difficulty 0
accepts any hash). -/
def hashZero : HashFn := fun _ _ _ _ _ => ""

/-- The operation sequence of the C1 witness: one `add_transaction`, one
explicit `mine_pending_transactions`. -/
def opsW : List LedgerOp := [.addTx {} "t1" "t2" 0, .mine "t3" 0]

/-- The fresh blockchain of the C1 witness. -/
def bcW0 : Blockchain := ⟨[⟨0, "g", [genesisTx "g"], "0", 0, ""⟩], [], 0⟩

/-- The final blockchain of the C1 witness. -/
def bcW : Blockchain :=
  ⟨[⟨0, "g", [genesisTx "g"], "0", 0, ""⟩,
    ⟨1, "t3", [{ timestamp := some "t1" }], "", 0, ""⟩], [], 0⟩

/-- Witness for C1 on a concrete two-block history. -/
theorem blockchain_ops_preserve_chain_validity_witness :
    Blockchain.new hashZero 0 "g" 0 = some bcW0 ∧
    runOps hashZero bcW0 opsW = some bcW ∧
    isChainValid hashZero bcW = true :=
  ⟨by decide, by decide,
    blockchain_ops_preserve_chain_validity hashZero 0 "g" 0 opsW bcW0 bcW
      (by decide) (by decide)⟩

/-! ## C2: sample-weighted aggregation -/

lemma list_eq_range_map_getD {α : Type} (d : α) (xs : List α) (n : Nat)
    (hn : xs.length = n) (f : Nat → α) (hf : ∀ k, k < n → xs.getD k d = f k) :
    xs = (List.range n).map f := by
  apply List.ext_getElem
  · simp [hn]
  · intro i h1 h2
    have hi : i < n := by simpa [hn] using h1
    have h3 : xs[i] = f i := by
      have := hf i hi
      rwa [List.getD_eq_getElem?_getD, List.getElem?_eq_getElem h1,
        Option.getD_some] at this
    simp [h3]

lemma getD_zipWith_add (a b : List Rat) (k : Nat) (hka : k < a.length)
    (hkb : k < b.length) :
    (List.zipWith (· + ·) a b).getD k 0 = a.getD k 0 + b.getD k 0 := by
  have hk : k < (List.zipWith (· + ·) a b).length := by
    rw [List.length_zipWith]
    exact lt_min hka hkb
  rw [List.getD_eq_getElem?_getD, List.getElem?_eq_getElem hk, Option.getD_some,
    List.getElem_zipWith,
    List.getD_eq_getElem?_getD, List.getElem?_eq_getElem hka, Option.getD_some,
    List.getD_eq_getElem?_getD, List.getElem?_eq_getElem hkb, Option.getD_some]

lemma getD_map_mul (w : List Rat) (r : Rat) (k : Nat) (hk : k < w.length) :
    (w.map fun x => x * r).getD k 0 = w.getD k 0 * r := by
  have hk' : k < (w.map fun x => x * r).length := by simpa using hk
  rw [List.getD_eq_getElem?_getD, List.getElem?_eq_getElem hk', Option.getD_some,
    List.getElem_map,
    List.getD_eq_getElem?_getD, List.getElem?_eq_getElem hk, Option.getD_some]

lemma aggStep_fold (total : Int) (htot : total ≠ 0) (l : Nat) (sh : List Nat)
    (n : Nat) :
    ∀ (us : List UpdateRec) (acc : NDArray),
      (∀ u ∈ us, ∃ w, u.weights[l]? = some w ∧ w.shape = sh ∧ w.data.length = n) →
      acc.shape = sh → acc.data.length = n →
      ∃ res : NDArray,
        us.foldlM (aggStep total l) (some acc) = .ok (some res) ∧
        res.shape = sh ∧ res.data.length = n ∧
        ∀ k, k < n → res.data.getD k 0 =
          acc.data.getD k 0 +
          (us.map fun u => (u.weights.getD l default).data.getD k 0 *
            ((u.samples_trained : Rat) / (total : Rat))).sum := by
  intro us
  induction us with
  | nil =>
    intro acc _ hsh hlen
    exact ⟨acc, rfl, hsh, hlen, by simp⟩
  | cons u us ih =>
    intro acc hus hsh hlen
    obtain ⟨w, hw, hwsh, hwlen⟩ := hus u (List.mem_cons_self u us)
    have hwd : u.weights.getD l default = w := by
      rw [List.getD_eq_getElem?_getD, hw, Option.getD_some]
    set c : NDArray := w.smul ((u.samples_trained : Rat) / (total : Rat)) with hc
    have hcsh : c.shape = sh := hwsh
    have hclen : c.data.length = n := by
      rw [hc]
      simpa [NDArray.smul] using hwlen
    have hshapes : acc.shape = c.shape := hsh.trans hcsh.symm
    set acc' : NDArray := ⟨acc.shape, List.zipWith (· + ·) acc.data c.data⟩
      with hacc'
    have hadd : acc.add c = .ok acc' := by
      rw [NDArray.add, if_pos hshapes, hacc']
    have hstep : aggStep total l (some acc) u = .ok (some acc') := by
      have h1 : aggStep total l (some acc) u =
          (acc.add (w.smul ((u.samples_trained : Rat) / (total : Rat)))).map some := by
        simp [aggStep, hw, htot, Bind.bind, Except.bind, Except.map]
      rw [h1, ← hc, hadd]
      rfl
    have hacc'sh : acc'.shape = sh := hsh
    have hacc'len : acc'.data.length = n := by
      rw [hacc']
      simp [List.length_zipWith, hlen, hclen]
    have hrest : ∀ v ∈ us, ∃ w', v.weights[l]? = some w' ∧ w'.shape = sh ∧
        w'.data.length = n :=
      fun v hv => hus v (List.mem_cons_of_mem u hv)
    obtain ⟨res, hfold, hrsh, hrlen, hrget⟩ := ih acc' hrest hacc'sh hacc'len
    refine ⟨res, ?_, hrsh, hrlen, ?_⟩
    · rw [List.foldlM_cons, hstep]
      exact hfold
    · intro k hk
      have hck : acc'.data.getD k 0 =
          acc.data.getD k 0 + w.data.getD k 0 *
            ((u.samples_trained : Rat) / (total : Rat)) := by
        rw [hacc']
        show (List.zipWith (· + ·) acc.data c.data).getD k 0 = _
        rw [getD_zipWith_add acc.data c.data k (by rw [hlen]; exact hk)
          (by rw [hclen]; exact hk)]
        congr 1
        rw [hc]
        show (w.data.map fun x =>
          x * ((u.samples_trained : Rat) / (total : Rat))).getD k 0 = _
        rw [getD_map_mul w.data _ k (by rw [hwlen]; exact hk)]
      rw [hrget k hk, hck, List.map_cons, List.sum_cons, hwd, add_assoc]

lemma aggregateLayer_spec (total : Int) (htot : total ≠ 0) (l : Nat)
    (u0 : UpdateRec) (rest : List UpdateRec)
    (hall : ∀ u ∈ (u0 :: rest), ∃ w, u.weights[l]? = some w ∧
      w.shape = (u0.weights.getD l default).shape ∧
      w.data.length = (u0.weights.getD l default).data.length) :
    aggregateLayer total (u0 :: rest) l =
      .ok (some ⟨(u0.weights.getD l default).shape,
        (List.range (u0.weights.getD l default).data.length).map fun k =>
          ((u0 :: rest).map fun u => (u.weights.getD l default).data.getD k 0 *
            ((u.samples_trained : Rat) / (total : Rat))).sum⟩) := by
  obtain ⟨w0, hw0, hw0sh, hw0len⟩ := hall u0 (List.mem_cons_self u0 rest)
  have hw0d : u0.weights.getD l default = w0 := by
    rw [List.getD_eq_getElem?_getD, hw0, Option.getD_some]
  set c0 : NDArray := w0.smul ((u0.samples_trained : Rat) / (total : Rat)) with hc0
  have hstep0 : aggStep total l none u0 = .ok (some c0) := by
    simp [aggStep, hw0, htot, Bind.bind, Except.bind, hc0]
  have hc0sh : c0.shape = (u0.weights.getD l default).shape := hw0sh
  have hc0len : c0.data.length = (u0.weights.getD l default).data.length := by
    rw [hc0]
    simpa [NDArray.smul] using hw0len
  have hrest : ∀ v ∈ rest, ∃ w, v.weights[l]? = some w ∧
      w.shape = (u0.weights.getD l default).shape ∧
      w.data.length = (u0.weights.getD l default).data.length :=
    fun v hv => hall v (List.mem_cons_of_mem u0 hv)
  obtain ⟨res, hfold, hrsh, hrlen, hrget⟩ :=
    aggStep_fold total htot l (u0.weights.getD l default).shape
      (u0.weights.getD l default).data.length rest c0 hrest hc0sh hc0len
  have hrun : aggregateLayer total (u0 :: rest) l = .ok (some res) := by
    rw [aggregateLayer, List.foldlM_cons, hstep0]
    exact hfold
  have hdata : res.data =
      (List.range (u0.weights.getD l default).data.length).map fun k =>
        ((u0 :: rest).map fun u => (u.weights.getD l default).data.getD k 0 *
          ((u.samples_trained : Rat) / (total : Rat))).sum := by
    apply list_eq_range_map_getD 0 res.data _ hrlen
    intro k hk
    rw [hrget k hk, List.map_cons, List.sum_cons]
    congr 1
    rw [hc0]
    show (w0.data.map fun x =>
      x * ((u0.samples_trained : Rat) / (total : Rat))).getD k 0 = _
    rw [getD_map_mul w0.data _ k (by rw [hw0len]; exact hk), hw0d]
  have hres : res = ⟨(u0.weights.getD l default).shape,
      (List.range (u0.weights.getD l default).data.length).map fun k =>
        ((u0 :: rest).map fun u => (u.weights.getD l default).data.getD k 0 *
          ((u.samples_trained : Rat) / (total : Rat))).sum⟩ := by
    cases res with
    | mk rsh rdata =>
      have h1 : rsh = (u0.weights.getD l default).shape := hrsh
      have h2 : rdata =
          (List.range (u0.weights.getD l default).data.length).map fun k =>
            ((u0 :: rest).map fun u => (u.weights.getD l default).data.getD k 0 *
              ((u.samples_trained : Rat) / (total : Rat))).sum := hdata
      subst h1
      subst h2
      rfl
  rw [hrun, hres]

lemma exceptMapM_ok {α β ε : Type} (f : α → Except ε β) (g : α → β) :
    ∀ (l : List α), (∀ x ∈ l, f x = .ok (g x)) → l.mapM f = .ok (l.map g) := by
  intro l
  induction l with
  | nil => intro _; rfl
  | cons a t ih =>
    intro h
    rw [List.mapM_cons, h a (List.mem_cons_self a t),
      ih (fun x hx => h x (List.mem_cons_of_mem a hx))]
    rfl

lemma weighted_sum_div {α : Type} (f g : α → Rat) (c : Rat) (l : List α) :
    (l.map fun u => f u * (g u / c)).sum = (l.map fun u => f u * g u).sum / c := by
  induction l with
  | nil => simp
  | cons a t ih => simp [ih, add_div, mul_div_assoc]

lemma aggregateRound_ok (st : ServState) (round : Int) (now : String)
    (u0 : UpdateRec) (rest : List UpdateRec)
    (hlk : lookupRound st.round_updates round = some (u0 :: rest))
    (htot : ((u0 :: rest).map (·.samples_trained)).sum ≠ 0)
    (hall : ∀ u ∈ (u0 :: rest), ∀ l, l < u0.weights.length →
      ∃ w, u.weights[l]? = some w ∧
        w.shape = (u0.weights.getD l default).shape ∧
        w.data.length = (u0.weights.getD l default).data.length) :
    aggregateRound st round now = .ok
      { current_round := round,
        round_updates := st.round_updates,
        global_model_weights := some ((List.range u0.weights.length).map fun l =>
          some (⟨(u0.weights.getD l default).shape,
            (List.range (u0.weights.getD l default).data.length).map fun k =>
              ((u0 :: rest).map fun u =>
                (u.weights.getD l default).data.getD k 0 *
                  ((u.samples_trained : Rat) /
                    (((((u0 :: rest).map (·.samples_trained)).sum : Int) : Rat)))).sum⟩
            : NDArray)),
        gm_accuracy :=
          ((u0 :: rest).map fun u => u.local_accuracy * (u.samples_trained : Rat)).sum /
            (((((u0 :: rest).map (·.samples_trained)).sum : Int) : Rat)),
        gm_loss :=
          ((u0 :: rest).map fun u => u.local_loss * (u.samples_trained : Rat)).sum /
            (((((u0 :: rest).map (·.samples_trained)).sum : Int) : Rat)),
        gm_total_samples := ((u0 :: rest).map (·.samples_trained)).sum,
        logged := st.logged ++ [aggregationTx round
            (((u0 :: rest).map fun u => u.local_accuracy * (u.samples_trained : Rat)).sum /
              (((((u0 :: rest).map (·.samples_trained)).sum : Int) : Rat)))
            (((u0 :: rest).map fun u => u.local_loss * (u.samples_trained : Rat)).sum /
              (((((u0 :: rest).map (·.samples_trained)).sum : Int) : Rat)))
            (u0 :: rest).length (((u0 :: rest).map (·.samples_trained)).sum) now]
          ++ ((u0 :: rest).map fun u =>
            { type := some "REWARD_DISTRIBUTION", hospital_id := some u.hospital_id,
              round := some round,
              reward_tokens := some (coordReward u
                (((u0 :: rest).map (·.samples_trained)).sum)),
              accuracy := some u.local_accuracy,
              samples_contributed := some u.samples_trained,
              timestamp := some now : Tx }) } := by
  have hmapM : (List.range u0.weights.length).mapM
      (aggregateLayer (((u0 :: rest).map (·.samples_trained)).sum) (u0 :: rest)) =
      .ok ((List.range u0.weights.length).map fun l =>
        some (⟨(u0.weights.getD l default).shape,
          (List.range (u0.weights.getD l default).data.length).map fun k =>
            ((u0 :: rest).map fun u =>
              (u.weights.getD l default).data.getD k 0 *
                ((u.samples_trained : Rat) /
                  (((((u0 :: rest).map (·.samples_trained)).sum : Int) : Rat)))).sum⟩
          : NDArray)) := by
    apply exceptMapM_ok
    intro l hl
    exact aggregateLayer_spec _ htot l u0 rest
      (fun u hu => hall u hu l (List.mem_range.mp hl))
  simp only [aggregateRound, hlk]
  rw [hmapM]
  simp only [if_neg htot]
  rw [distributeRewards_ok _ round now htot]

/-- C2: on a round with a non-empty buffer (and the implicit aggregation
preconditions: non-zero total samples, uniform layer structure — their
violation is the subject of C6), `_aggregate_round` succeeds and stores,
for every layer `l` of the first buffered update and every position `k`,
`aggregated[l][k] = Σ_i weight_i[l][k] * (samples_i / total_samples)`,
and stores the sample-weighted averages of the participants' local
accuracy and loss as the global metrics, advancing `current_round`. -/
theorem aggregate_round_weighted_average (st : ServState) (round : Int)
    (now : String) (u0 : UpdateRec) (rest : List UpdateRec)
    (hlk : lookupRound st.round_updates round = some (u0 :: rest))
    (htot : ((u0 :: rest).map (·.samples_trained)).sum ≠ 0)
    (hlen : ∀ u ∈ (u0 :: rest), u.weights.length = u0.weights.length)
    (hsh : ∀ u ∈ (u0 :: rest), ∀ l, l < u0.weights.length →
      (u.weights.getD l default).shape = (u0.weights.getD l default).shape)
    (hdl : ∀ u ∈ (u0 :: rest), ∀ l, l < u0.weights.length →
      (u.weights.getD l default).data.length = (u0.weights.getD l default).data.length) :
    (aggregateRound st round now).map (·.global_model_weights) =
      .ok (some ((List.range u0.weights.length).map fun l =>
        some (⟨(u0.weights.getD l default).shape,
          (List.range (u0.weights.getD l default).data.length).map fun k =>
            ((u0 :: rest).map fun u =>
              (u.weights.getD l default).data.getD k 0 *
                ((u.samples_trained : Rat) /
                  (((((u0 :: rest).map (·.samples_trained)).sum : Int) : Rat)))).sum⟩
          : NDArray)))
    ∧ (aggregateRound st round now).map (·.gm_accuracy) =
      .ok (((u0 :: rest).map fun u => u.local_accuracy *
        ((u.samples_trained : Rat) /
          (((((u0 :: rest).map (·.samples_trained)).sum : Int) : Rat)))).sum)
    ∧ (aggregateRound st round now).map (·.gm_loss) =
      .ok (((u0 :: rest).map fun u => u.local_loss *
        ((u.samples_trained : Rat) /
          (((((u0 :: rest).map (·.samples_trained)).sum : Int) : Rat)))).sum)
    ∧ (aggregateRound st round now).map (·.current_round) = .ok round := by
  have hall : ∀ u ∈ (u0 :: rest), ∀ l, l < u0.weights.length →
      ∃ w, u.weights[l]? = some w ∧
        w.shape = (u0.weights.getD l default).shape ∧
        w.data.length = (u0.weights.getD l default).data.length := by
    intro u hu l hl
    have hlu : l < u.weights.length := by rw [hlen u hu]; exact hl
    refine ⟨u.weights.getD l default, ?_, hsh u hu l hl, hdl u hu l hl⟩
    rw [List.getElem?_eq_getElem hlu]
    rw [List.getD_eq_getElem u.weights default hlu]
  have h := aggregateRound_ok st round now u0 rest hlk htot hall
  refine ⟨?_, ?_, ?_, ?_⟩
  · rw [h]
    rfl
  · rw [h]
    simp only [Except.map]
    rw [weighted_sum_div (fun u : UpdateRec => u.local_accuracy)
      (fun u : UpdateRec => (u.samples_trained : Rat))
      (((((u0 :: rest).map (·.samples_trained)).sum : Int) : Rat)) (u0 :: rest)]
  · rw [h]
    simp only [Except.map]
    rw [weighted_sum_div (fun u : UpdateRec => u.local_loss)
      (fun u : UpdateRec => (u.samples_trained : Rat))
      (((((u0 :: rest).map (·.samples_trained)).sum : Int) : Rat)) (u0 :: rest)]
  · rw [h]
    rfl

/-- First buffered update of the C2 witness: weights `[2.0]`, 100
samples. -/
def uW1 : UpdateRec :=
  { hospital_id := "h1", weights := [⟨[1], [2]⟩], samples_trained := 100,
    local_accuracy := 1, local_loss := 0, timestamp := "t" }

/-- Second buffered update of the C2 witness: weights `[4.0]`, 300
samples. -/
def uW2 : UpdateRec :=
  { hospital_id := "h2", weights := [⟨[1], [4]⟩], samples_trained := 300,
    local_accuracy := 0, local_loss := 1, timestamp := "t" }

/-- Coordinator state of the C2 witness. -/
def stW2 : ServState :=
  { current_round := 0, round_updates := [(1, [uW1, uW2])],
    global_model_weights := none, gm_accuracy := 0, gm_loss := 0,
    gm_total_samples := 0, logged := [] }

/-- Witness for C2 on the spec's instance
`{(w=[2.0], samples=100), (w=[4.0], samples=300)}`: the aggregated weight
is `2.0*0.25 + 4.0*0.75 = 3.5`. -/
theorem aggregate_round_weighted_average_witness :
    (aggregateRound stW2 1 "now").map (·.global_model_weights) =
      .ok (some ((List.range uW1.weights.length).map fun l =>
        some (⟨(uW1.weights.getD l default).shape,
          (List.range (uW1.weights.getD l default).data.length).map fun k =>
            ((uW1 :: [uW2]).map fun u =>
              (u.weights.getD l default).data.getD k 0 *
                ((u.samples_trained : Rat) /
                  (((((uW1 :: [uW2]).map (·.samples_trained)).sum : Int) : Rat)))).sum⟩
          : NDArray)))
    ∧ (aggregateRound stW2 1 "now").map (·.global_model_weights) =
        .ok (some [some (⟨[1], [7/2]⟩ : NDArray)]) := by
  have h := aggregate_round_weighted_average stW2 1 "now" uW1 [uW2]
    (by decide) (by decide) (by decide) (by decide) (by decide)
  refine ⟨h.1, ?_⟩
  rw [h.1]
  norm_num [uW1, uW2, List.range_succ]

/-! ## C6: unguarded aggregation preconditions -/

/-- Buffered update with zero samples (one layer). -/
def uZ1 : UpdateRec :=
  { hospital_id := "h1", weights := [⟨[1], [1]⟩], samples_trained := 0,
    local_accuracy := 1, local_loss := 0, timestamp := "t" }

/-- Second buffered update with zero samples (one layer). -/
def uZ2 : UpdateRec :=
  { hospital_id := "h2", weights := [⟨[1], [3]⟩], samples_trained := 0,
    local_accuracy := 1, local_loss := 1, timestamp := "t" }

/-- Coordinator state whose round-1 buffer totals zero samples. -/
def stZ : ServState :=
  { current_round := 0, round_updates := [(1, [uZ1, uZ2])],
    global_model_weights := none, gm_accuracy := 0, gm_loss := 0,
    gm_total_samples := 0, logged := [] }

/-- Buffered update with one layer, 50 samples. -/
def uM1 : UpdateRec :=
  { hospital_id := "h1", weights := [⟨[1], [1]⟩], samples_trained := 50,
    local_accuracy := 1, local_loss := 0, timestamp := "t" }

/-- Buffered update with zero layers, 50 samples (layer-count
mismatch). -/
def uM2 : UpdateRec :=
  { hospital_id := "h2", weights := [], samples_trained := 50,
    local_accuracy := 1, local_loss := 0, timestamp := "t" }

/-- Coordinator state whose round-1 buffer has mismatched layer
counts. -/
def stM : ServState :=
  { current_round := 0, round_updates := [(1, [uM1, uM2])],
    global_model_weights := none, gm_accuracy := 0, gm_loss := 0,
    gm_total_samples := 0, logged := [] }

/-- C6: the claim says a zero-total-samples round or a mismatched layer
count makes the aggregation attempt fail as a reported error with no
division by zero and no crash; the code instead raises an unhandled
`ZeroDivisionError` (respectively `IndexError`).  The round's buffer and
the Global Model State are indeed left unchanged at the point of the
raise (the error carries the mutated state; here it equals the input
state). -/
theorem aggregate_round_unguarded_preconditions :
    aggregateRound stZ 1 "now" = .error (.zeroDivisionError, stZ)
    ∧ aggregateRound stM 1 "now" = .error (.indexError, stM) :=
  ⟨rfl, rfl⟩
